import Mathlib

/-!
Shallow embedding of the polysynth voice engine from `src/main.cpp`.

Floating-point scalars (`float`/`double`) are modelled as exact rationals `ℚ`;
machine integers as `ℤ`/`ℕ`.  The transcendental library calls are abstracted
as explicit function parameters: `sinf` stands for the C `sinf`, and `sin2pi`
stands for the map `x ↦ sin(2·π·x)` (the sine wave generator evaluates
`sin(t * M_PI * freq * 2.0) = sin(2π·(t·freq))`, and π is irrational, so the
composite map is the abstraction boundary).  Global mutable state (the voice
pool, the effect toggles, the compressor accumulators) is passed and returned
explicitly.
-/

namespace Polysynth

/-- The source's `min` (`a > b ? b : a`). -/
def cmin (a b : ℚ) : ℚ := if a > b then b else a

/-- The source's `max` (`a > b ? a : b`). -/
def cmax (a b : ℚ) : ℚ := if a > b then a else b

/-- The source's `clamp(val, mi, ma) = max(min(val, ma), mi)`. -/
def clamp (val mi ma : ℚ) : ℚ := cmax (cmin val ma) mi

/-- The source's `lerp(from, to, amt) = from + ((to - from) * amt)`
(`from` is a Lean keyword, so the first two parameters are named `src`/`dst`). -/
def lerp (src dst amt : ℚ) : ℚ := src + ((dst - src) * amt)

/-- A C cast from a real scalar to `int`: truncation toward zero. -/
def ratTrunc (q : ℚ) : ℤ := if q < 0 then ⌈q⌉ else ⌊q⌋

/-- The source's `roundToInt(val) = (int)(val < 0 ? val - 0.5 : val + 0.5)`. -/
def roundToInt (val : ℚ) : ℤ :=
  if val < 0 then ratTrunc (val - 1/2) else ratTrunc (val + 1/2)

/-- The source's `ADSRCurve` with its default member initializers
(`0.01`, `0.1`, `0.8`, `0.65`). -/
structure ADSRCurve where
  attackTime : ℚ := 1/100
  releaseTime : ℚ := 1/10
  sustainAmount : ℚ := 4/5
  decayTime : ℚ := 13/20
deriving DecidableEq

/-- The source's `getADSAttenuation`: attenuation since note press. -/
def getADSAttenuation (curve : ADSRCurve) (time : ℚ) : ℚ :=
  let decayStart := curve.attackTime
  let decayProgress := clamp ((time - decayStart) / curve.decayTime) 0 1
  let decayed := lerp 1 curve.sustainAmount decayProgress
  clamp (time / curve.attackTime) 0 1 * decayed

/-- The source's `getRAttenuation`: attenuation since note release. -/
def getRAttenuation (curve : ADSRCurve) (time : ℚ) : ℚ :=
  clamp (1 - time / curve.releaseTime) 0 1 * curve.sustainAmount

/-- The source's `bitcrush`.  The C version takes the bit count as a `float`
and computes `powf(2.0f, bits)`; the claims only concern whole bit depths,
where `powf(2, bits)` is exactly `2 ^ bits`, so the bit count is a `ℕ`. -/
def bitcrush (value : ℚ) (bits : ℕ) : ℚ :=
  let distinctValues : ℚ := 2 ^ bits
  let crushedVal := (value + 1) * (1/2)
  let intVal := roundToInt (crushedVal * distinctValues)
  (intVal : ℚ) / distinctValues

/-- C `fmod(x, y) = x - trunc(x / y) * y` (for `y ≠ 0`). -/
def fmod (x y : ℚ) : ℚ := x - (ratTrunc (x / y) : ℚ) * y

/-- The source's `saw(t, freq) = (fmod(t * freq, 1.0) * 2.0) - 1.0`. -/
def saw (t freq : ℚ) : ℚ := fmod (t * freq) 1 * 2 - 1

/-- The source's `sine(t, freq) = sin(t * M_PI * freq * 2.0)`; the argument
equals `2π·(t·freq)`, and the map `x ↦ sin(2πx)` is the abstract parameter
`sin2pi`. -/
def sine (sin2pi : ℚ → ℚ) (t freq : ℚ) : ℚ := sin2pi (t * freq)

/-- The source's `square(t, freq) = sine(t, freq) > 0.0f ? 1.0f : -1.0f`. -/
def square (sin2pi : ℚ → ℚ) (t freq : ℚ) : ℚ :=
  if sine sin2pi t freq > 0 then 1 else -1

/-- The source's `triangle(t, freq) = abs(saw(t, freq)) * 2.0f - 1.0f`. -/
def triangle (t freq : ℚ) : ℚ := |saw t freq| * 2 - 1

/-- The source's `Waveform` enum. -/
inductive Waveform where
  | W_Sine
  | W_Saw
  | W_Square
  | W_Triangle
deriving DecidableEq

/-- The source's `waveFuncs` table: `{ sine, saw, square, triangle }`. -/
def waveFuncs (sin2pi : ℚ → ℚ) : Waveform → (ℚ → ℚ → ℚ)
  | .W_Sine => sine sin2pi
  | .W_Saw => saw
  | .W_Square => square sin2pi
  | .W_Triangle => triangle

/-- The source's `pitch(p) = powf(1.059460646483f, p - 69.0f) * 440.0f`;
only ever called on integer MIDI notes, where `powf` with an integer exponent
is the exact integer power `zpow`. -/
def pitch (p : ℤ) : ℚ := (1059460646483 / 1000000000000 : ℚ) ^ (p - 69) * 440

/-- The global unison settings `unisonOrder`, `unisonDetuneAmount` and
`goofyUnison`, gathered into a record since the embedding passes the mutable
globals explicitly. -/
structure UnisonParams where
  unisonOrder : ℤ
  unisonDetuneAmount : ℚ
  goofyUnison : Bool
deriving DecidableEq

/-- The source's `getDetune(voiceIdx, detune)`.  `unisonOrder / 2` in the
goofy branch is C integer division, hence `ℤ` division here; the divisions
producing `perVoiceDetune` and `voiceIdx / unisonOrder` are float divisions. -/
def getDetune (p : UnisonParams) (sinf : ℚ → ℚ) (voiceIdx detune : ℚ) : ℚ :=
  let perVoiceDetune := detune / (p.unisonOrder : ℚ)
  if p.goofyUnison then
    (voiceIdx - ((p.unisonOrder / 2 : ℤ) : ℚ)) * perVoiceDetune
  else
    voiceIdx * (sinf (voiceIdx / (p.unisonOrder : ℚ)) * detune)

/-- The source's `getUnisonVoicePan(voiceIdx) = (voiceIdx / unisonOrder) * 2.0f - 1.0f`. -/
def getUnisonVoicePan (p : UnisonParams) (voiceIdx : ℚ) : ℚ :=
  (voiceIdx / (p.unisonOrder : ℚ)) * 2 - 1

/-- The source's `panToLVol(pan) = pan < 0 ? 1 : 1 - pan`. -/
def panToLVol (pan : ℚ) : ℚ := if pan < 0 then 1 else 1 - pan

/-- The source's `panToRVol(pan) = pan > 0 ? 1 : 1 + pan`. -/
def panToRVol (pan : ℚ) : ℚ := if pan > 0 then 1 else 1 + pan

/-- The frequency handed to `waveFunc` for tap `i` inside `doUnisonDetune`:
`freq + freq * getDetune(i, unisonDetuneAmount)` in normal mode, and
`freq + freq * getDetune(i, unisonDetuneAmount / unisonOrder)` in goofy mode
(the goofy branch of the caller passes `unisonDetuneAmount / unisonOrder`). -/
def tapFrequency (p : UnisonParams) (sinf : ℚ → ℚ) (freq i : ℚ) : ℚ :=
  if p.goofyUnison then
    freq + freq * getDetune p sinf i (p.unisonDetuneAmount / (p.unisonOrder : ℚ))
  else
    freq + freq * getDetune p sinf i p.unisonDetuneAmount

/-- The source's `doUnisonDetune`: accumulates `unisonOrder` detuned, panned
taps onto the incoming `lOut`/`rOut` and divides both by the order.  The C
loop `for (int i = 0; i < unisonOrder; i++)` is the fold over
`List.range unisonOrder`. -/
def doUnisonDetune (p : UnisonParams) (sinf : ℚ → ℚ) (waveFunc : ℚ → ℚ → ℚ)
    (t freq lIn rIn : ℚ) : ℚ × ℚ :=
  let step := fun (acc : ℚ × ℚ) (i : ℕ) =>
    let voiceSample := waveFunc t (tapFrequency p sinf freq (i : ℚ))
    let pan := getUnisonVoicePan p (i : ℚ)
    (acc.1 + voiceSample * panToLVol pan, acc.2 + voiceSample * panToRVol pan)
  let r := (List.range p.unisonOrder.toNat).foldl step (lIn, rIn)
  (r.1 / (p.unisonOrder : ℚ), r.2 / (p.unisonOrder : ℚ))

/-- The source's `NUM_VOICES`. -/
def NUM_VOICES : ℕ := 16

instance : NeZero NUM_VOICES := ⟨by decide⟩

/-- The source's `PolyphonicVoice` struct. -/
structure PolyphonicVoice where
  note : ℤ
  finishedPlaying : Bool
  freq : ℚ
  volume : ℚ
  pressTime : ℚ
  releaseTime : ℚ
deriving DecidableEq

/-- The global array `PolyphonicVoice voices[NUM_VOICES]`, modelled as a
function from slot index to voice. -/
abbrev VoicePool := Fin NUM_VOICES → PolyphonicVoice

/-- A global of static storage duration with no initializer is
zero-initialized in C++: every scalar field is `0` and the `bool` is
`false`. -/
def initVoice : PolyphonicVoice :=
  { note := 0, finishedPlaying := false, freq := 0, volume := 0,
    pressTime := 0, releaseTime := 0 }

/-- The state of `voices[]` at process start: all slots zero-initialized. -/
def initVoices : VoicePool := fun _ => initVoice

/-- The source's `getFreeVoiceIdx`: first slot with `finishedPlaying`, else
slot `0`. -/
def getFreeVoiceIdx (s : VoicePool) : Fin NUM_VOICES :=
  (((List.finRange NUM_VOICES).find? fun i => (s i).finishedPlaying).getD 0)

/-- The source's `getVoiceWithNote`: first slot whose voice matches `note`
with `volume > 0.0`; the C sentinel `-1` is `none`. -/
def getVoiceWithNote (note : ℤ) (s : VoicePool) : Option (Fin NUM_VOICES) :=
  (List.finRange NUM_VOICES).find? fun i =>
    decide ((s i).note = note) && decide (0 < (s i).volume)

/-- The source's `noteAlreadyDown`: some slot has `volume > 0.0` and the
given note. -/
def noteAlreadyDown (note : ℤ) (s : VoicePool) : Bool :=
  (List.finRange NUM_VOICES).any fun i =>
    decide (0 < (s i).volume) && decide ((s i).note = note)

/-- Voice `i` of pool `s` currently holds `note`: positive gate (`volume`)
and matching note — the condition scanned by `noteAlreadyDown` and
`getVoiceWithNote`. -/
def heldBy (s : VoicePool) (i : Fin NUM_VOICES) (note : ℤ) : Prop :=
  0 < (s i).volume ∧ (s i).note = note

instance (s : VoicePool) (i : Fin NUM_VOICES) (note : ℤ) :
    Decidable (heldBy s i note) := by
  unfold heldBy
  infer_instance

/-- The source's `lowpass(float& accum, float val, float q)`: the referenced
accumulator becomes `accum - q * (accum - val)` and that same value is
returned.  State-passing form: the pair is (returned value, accumulator after
the call); the two components are always equal. -/
def lowpass (accum val q : ℚ) : ℚ × ℚ :=
  let a := accum - q * (accum - val)
  (a, a)

/-- The source's `compressor(float& accum, float val, float magic)`.  The body
calls `lowpass(val, accum, magic)`, i.e. with the arguments transposed: the
by-reference slot that `lowpass` updates is the local copy of `val`, so the
persistent accumulator `accum` is read but never written.  The pair is
(returned sample, accumulator after the call); the second component is always
the unchanged `accum`. -/
def compressor (accum val magic : ℚ) : ℚ × ℚ :=
  let r := lowpass val accum magic
  let val1 := r.2
  let peak := |r.1|
  ((1 - peak) * val1, accum)

/-- The mutable globals read by `getVoiceSample`, gathered into a record:
`unisonDetune`, the unison settings, `enableBitcrush`, `crushBits`,
`enableCompressor`, `volume` (master volume) and `currWaveFunc`. -/
structure SynthConfig where
  unisonDetune : Bool
  uni : UnisonParams
  enableBitcrush : Bool
  crushBits : ℕ
  enableCompressor : Bool
  volume : ℚ
  currWaveFunc : Waveform

/-- The source's `getVoiceSample` in state-passing form: the result is
`((lOut, rOut), voice after the call, (lLpAccum, rLpAccum) after the call)`.
The C version writes `v.finishedPlaying` in the release branch and passes the
global accumulators `lLpAccum`/`rLpAccum` to `compressor` by reference. -/
def getVoiceSample (cfg : SynthConfig) (sinf sin2pi : ℚ → ℚ)
    (v : PolyphonicVoice) (sampleTime lLpAccum rLpAccum : ℚ) :
    (ℚ × ℚ) × PolyphonicVoice × (ℚ × ℚ) :=
  if v.finishedPlaying then ((0, 0), v, (lLpAccum, rLpAccum))
  else
    let wf := waveFuncs sin2pi cfg.currWaveFunc
    let lr0 : ℚ × ℚ :=
      if cfg.unisonDetune then doUnisonDetune cfg.uni sinf wf sampleTime v.freq 0 0
      else (wf sampleTime v.freq, wf sampleTime v.freq)
    let curve : ADSRCurve := {}
    let ar : ℚ × PolyphonicVoice :=
      if v.volume > 1/4 then
        (getADSAttenuation curve (sampleTime - v.pressTime), v)
      else
        let att := getRAttenuation curve (sampleTime - v.releaseTime)
        if att = 0 ∨ sampleTime > v.releaseTime + curve.releaseTime then
          (att, { v with finishedPlaying := true })
        else (att, v)
    let l1 := lr0.1 * ar.1 * cfg.volume
    let r1 := lr0.2 * ar.1 * cfg.volume
    let l2 := if cfg.enableBitcrush then bitcrush l1 cfg.crushBits else l1
    let r2 := if cfg.enableBitcrush then bitcrush r1 cfg.crushBits else r1
    if cfg.enableCompressor then
      let lc := compressor lLpAccum l2 (1/20)
      let rc := compressor rLpAccum r2 (1/20)
      ((lc.1, rc.1), ar.2, (lc.2, rc.2))
    else ((l2, r2), ar.2, (lLpAccum, rLpAccum))

/-- The source's `setNoteOn`: no-op when the note is already down, otherwise
claims `getFreeVoiceIdx` and sets `note`, `freq`, `volume = 1.0`, `pressTime`
and clears `finishedPlaying` (leaving `releaseTime` untouched). -/
def setNoteOn (note : ℤ) (currTime : ℚ) (s : VoicePool) : VoicePool :=
  if noteAlreadyDown note s then s
  else
    let voiceSlot := getFreeVoiceIdx s
    Function.update s voiceSlot
      { note := note, freq := pitch note, volume := 1, pressTime := currTime,
        finishedPlaying := false, releaseTime := (s voiceSlot).releaseTime }

/-- The number of slots currently holding `note` with positive volume: the
termination measure of `setNoteOff`'s `while (true)` loop. -/
def countHeld (note : ℤ) (s : VoicePool) : ℕ :=
  (Finset.univ.filter fun i : Fin NUM_VOICES =>
    (s i).note = note ∧ 0 < (s i).volume).card

/-- The source's `setNoteOff`: `while (true)` it looks up the first voice
holding `note` with positive volume, zeroes its volume and stamps
`releaseTime`, until the lookup fails.  Each pass strictly decreases
`countHeld`, which is the termination argument. -/
def setNoteOff (note : ℤ) (currTime : ℚ) (s : VoicePool) : VoicePool :=
  match h : getVoiceWithNote note s with
  | none => s
  | some voiceSlot =>
      setNoteOff note currTime
        (Function.update s voiceSlot
          { s voiceSlot with volume := 0, releaseTime := currTime })
termination_by countHeld note s
decreasing_by
  have hp := List.find?_some h
  simp only [Bool.and_eq_true, decide_eq_true_eq] at hp
  apply Finset.card_lt_card
  constructor
  · intro j hj
    simp only [Finset.mem_filter, Finset.mem_univ, true_and] at hj ⊢
    by_cases hji : j = voiceSlot
    · subst hji
      simp [Function.update_same] at hj
    · simpa [Function.update_noteq hji] using hj
  · intro hsub
    have := hsub (by simp [Finset.mem_filter, hp.1, hp.2] :
      voiceSlot ∈ Finset.univ.filter fun i : Fin NUM_VOICES =>
        (s i).note = note ∧ 0 < (s i).volume)
    simp [Finset.mem_filter, Function.update_same] at this

/-! ### Helper lemmas -/

theorem clamp01_of_nonpos {v : ℚ} (h : v ≤ 0) : clamp v 0 1 = 0 := by
  have h1 : ¬ v > 1 := by linarith
  have h2 : ¬ v > 0 := by linarith
  simp [clamp, cmin, cmax, h1, h2]

theorem clamp01_of_one_le {v : ℚ} (h : 1 ≤ v) : clamp v 0 1 = 1 := by
  by_cases h1 : v > 1
  · simp [clamp, cmin, cmax, h1]
  · have hv : v = 1 := le_antisymm (not_lt.mp h1) h
    simp [clamp, cmin, cmax, hv]

theorem clamp01_of_mem {v : ℚ} (h0 : 0 ≤ v) (h1 : v ≤ 1) : clamp v 0 1 = v := by
  have hx : ¬ v > 1 := by linarith
  by_cases h2 : v > 0
  · simp [clamp, cmin, cmax, hx, h2]
  · have hv : v = 0 := le_antisymm (not_lt.mp h2) h0
    simp [clamp, cmin, cmax, hv]

theorem noteAlreadyDown_iff {note : ℤ} {s : VoicePool} :
    noteAlreadyDown note s = true ↔
      ∃ i, 0 < (s i).volume ∧ (s i).note = note := by
  simp [noteAlreadyDown, List.any_eq_true, List.mem_finRange]

theorem getVoiceWithNote_eq_none_iff {note : ℤ} {s : VoicePool} :
    getVoiceWithNote note s = none ↔
      ∀ i, ¬ ((s i).note = note ∧ 0 < (s i).volume) := by
  simp [getVoiceWithNote, List.find?_eq_none, List.mem_finRange, Decidable.not_and_iff_or_not]

theorem setNoteOn_of_down {n : ℤ} {t : ℚ} {s : VoicePool}
    (h : noteAlreadyDown n s = true) : setNoteOn n t s = s := by
  simp [setNoteOn, h]

theorem setNoteOn_of_fresh {n : ℤ} {t : ℚ} {s : VoicePool}
    (h : noteAlreadyDown n s = false) :
    setNoteOn n t s = Function.update s (getFreeVoiceIdx s)
      ⟨n, false, pitch n, 1, t, (s (getFreeVoiceIdx s)).releaseTime⟩ := by
  simp [setNoteOn, h]

/-! ### Claim C1 -/

/-- Claim C1 (code evaluated at the failing input): the claim says the
compressor stage updates the shared accumulator to
`accum - 0.05*(accum - sample)` and emits `(1 - |accum|) * sample`.  In the
code, `compressor` calls `lowpass(val, accum, magic)` with the arguments
transposed, so the persistent accumulator is never written: its second
component (the accumulator after the call) always equals the incoming
`accum`, and at accumulator `0`, sample `1`, coefficient `1/20` the code
emits `19/400 = 0.0475`, not the `(1 - |1/20|) * 1 = 19/20` the claim
mandates. -/
theorem compressor_accumulator_stuck :
    (∀ accum val magic : ℚ, (compressor accum val magic).2 = accum) ∧
    compressor 0 1 (1/20) = (19/400, 0) ∧
    (0 : ℚ) - 1/20 * ((0:ℚ) - 1) = 1/20 ∧
    ((19/400 : ℚ) ≠ (1 - |(1/20 : ℚ)|) * 1) := by
  refine ⟨fun accum val magic => rfl, ?_, by norm_num, ?_⟩
  · norm_num [compressor, lowpass, abs_of_nonneg]
  · rw [abs_of_nonneg (by norm_num : (0:ℚ) ≤ 1/20)]
    norm_num

/-! ### Claim C2 -/

/-- Claim C2, counterexample: `bitcrush` never maps its quantized value back
to `[-1,1]`; at input `0` with 16 bits it returns `1/2`, which is not within
`1/2^16` of the input, and with 1 bit the inputs `-1`, `0`, `1` hit three
pairwise distinct levels `0`, `1/2`, `1`, not two. -/
theorem bitcrush_claim_ce :
    bitcrush 0 16 = 1/2 ∧ ¬ (|bitcrush 0 16 - 0| ≤ 1/2^16) ∧
    bitcrush (-1) 1 = 0 ∧ bitcrush 0 1 = 1/2 ∧ bitcrush 1 1 = 1 ∧
    (0 : ℚ) ≠ 1/2 ∧ (0 : ℚ) ≠ 1 ∧ (1/2 : ℚ) ≠ 1 := by
  have h16 : bitcrush 0 16 = 1/2 := by norm_num [bitcrush, roundToInt, ratTrunc]
  refine ⟨h16, ?_, ?_, ?_, ?_, by norm_num, by norm_num, by norm_num⟩
  · rw [h16]
    rw [abs_of_nonneg (by norm_num : (0:ℚ) ≤ 1/2 - 0)]
    norm_num
  · norm_num [bitcrush, roundToInt, ratTrunc]
  · norm_num [bitcrush, roundToInt, ratTrunc]
  · norm_num [bitcrush, roundToInt, ratTrunc]

/-- Claim C2, amended: `bitcrush` quantizes the shifted half-scale sample
`(v+1)/2` to the grid `k/2^bits` on `[0,1]` by round-to-nearest and returns
it without re-centering to `[-1,1]`: for inputs in `[-1,1]`, 16 bits
reproduce `(v+1)/2` (not `v`) within `1/2^17`, and 1 bit maps every input to
one of the three levels `0`, `1/2`, `1`. -/
theorem bitcrush_shifted_quantization (v : ℚ) (h1 : -1 ≤ v) (h2 : v ≤ 1) :
    |bitcrush v 16 - (v + 1) / 2| ≤ 1/2^17 ∧
    (bitcrush v 1 = 0 ∨ bitcrush v 1 = 1/2 ∨ bitcrush v 1 = 1) := by
  constructor
  · have hx : (0:ℚ) ≤ (v + 1) * (1/2) * 2^16 := by nlinarith
    simp only [bitcrush, roundToInt, ratTrunc]
    rw [if_neg (not_lt.mpr hx), if_neg (not_lt.mpr (by linarith))]
    have hfl : ((⌊(v + 1) * (1/2) * 2^16 + 1/2⌋ : ℤ) : ℚ) ≤ (v + 1) * (1/2) * 2^16 + 1/2 :=
      Int.floor_le _
    have hfg : (v + 1) * (1/2) * 2^16 + 1/2 - 1 < ((⌊(v + 1) * (1/2) * 2^16 + 1/2⌋ : ℤ) : ℚ) :=
      Int.sub_one_lt_floor _
    rw [abs_le]
    constructor <;> nlinarith
  · have hx : (0:ℚ) ≤ (v + 1) * (1/2) * 2^1 := by nlinarith
    simp only [bitcrush, roundToInt, ratTrunc]
    rw [if_neg (not_lt.mpr hx), if_neg (not_lt.mpr (by linarith))]
    have hlo : (0 : ℤ) ≤ ⌊(v + 1) * (1/2) * 2^1 + 1/2⌋ := by
      apply Int.le_floor.mpr
      push_cast
      nlinarith
    have hhi : ⌊(v + 1) * (1/2) * 2^1 + 1/2⌋ ≤ 2 := by
      have : ⌊(v + 1) * (1/2) * 2^1 + 1/2⌋ ≤ ⌊(5/2 : ℚ)⌋ :=
        Int.floor_le_floor (by nlinarith)
      have h52 : ⌊(5/2 : ℚ)⌋ = 2 := by norm_num
      omega
    have hcases : ⌊(v + 1) * (1/2) * 2^1 + 1/2⌋ = 0 ∨
        ⌊(v + 1) * (1/2) * 2^1 + 1/2⌋ = 1 ∨
        ⌊(v + 1) * (1/2) * 2^1 + 1/2⌋ = 2 := by omega
    rcases hcases with h | h | h <;> rw [h] <;> norm_num

/-- Witness for the amended C2 at the concrete input `v = 1/3`. -/
theorem bitcrush_shifted_quantization_witness :
    (-1 ≤ (1/3 : ℚ)) ∧ ((1/3 : ℚ) ≤ 1) ∧
    (|bitcrush (1/3) 16 - ((1/3) + 1) / 2| ≤ 1/2^17 ∧
      (bitcrush (1/3) 1 = 0 ∨ bitcrush (1/3) 1 = 1/2 ∨ bitcrush (1/3) 1 = 1)) :=
  ⟨by norm_num, by norm_num,
    bitcrush_shifted_quantization (1/3) (by norm_num) (by norm_num)⟩

/-! ### Claim C3 -/

/-- Claim C3, counterexample: in goofy mode the caller `doUnisonDetune`
passes `unisonDetuneAmount / unisonOrder` into `getDetune`, which divides by
the order again, so with `order = 2`, `detuneAmount = 1`, base frequency `1`
and tap `i = 0` the code's tap frequency is `3/4`, while the claimed offset
`(i - order/2) * (detuneAmount / order)` would give `1 * (1 + (0 - 2/2) * (1/2)) = 1/2`. -/
theorem tapFrequency_goofy_ce :
    tapFrequency ⟨2, 1, true⟩ (fun _ => 0) 1 0 = 3/4 ∧
    (1 : ℚ) * (1 + (0 - 2/2) * (1/2)) = 1/2 ∧ ((3/4 : ℚ) ≠ 1/2) := by
  refine ⟨?_, by norm_num, by norm_num⟩
  norm_num [tapFrequency, getDetune]

/-- Claim C3, amended: in normal mode the tap frequency is
`freq * (1 + i * sin(i/order) * detuneAmount)` as claimed; in goofy mode the
detune amount is divided by the order twice (once at the call site, once
inside `getDetune`), so the tap frequency is
`freq * (1 + (i - ⌊order/2⌋) * detuneAmount / order²)`, with C integer
division in `order/2`. -/
theorem tapFrequency_detune_formula (p : UnisonParams) (sinf : ℚ → ℚ) (freq i : ℚ) :
    (p.goofyUnison = false →
      tapFrequency p sinf freq i =
        freq * (1 + i * sinf (i / (p.unisonOrder : ℚ)) * p.unisonDetuneAmount)) ∧
    (p.goofyUnison = true →
      tapFrequency p sinf freq i =
        freq * (1 + (i - ((p.unisonOrder / 2 : ℤ) : ℚ)) * p.unisonDetuneAmount
          / (p.unisonOrder : ℚ) ^ 2)) := by
  constructor <;> intro h <;> simp only [tapFrequency, getDetune, h,
    Bool.false_eq_true, if_false, if_true] <;> ring

/-- Witness for the amended C3 in normal mode at order 2, amount 1,
`sinf` the constant `1/2`, base frequency 1 and tap 1. -/
theorem tapFrequency_detune_formula_witness :
    tapFrequency ⟨2, 1, false⟩ (fun _ => 1/2) 1 1 = 3/2 := by
  have h := (tapFrequency_detune_formula ⟨2, 1, false⟩ (fun _ => 1/2) 1 1).1 rfl
  norm_num at h
  exact h

/-! ### Claim C4 -/

/-- Claim C4, counterexample: the boundedness contract is claimed for all
inputs `(t, f)`, but C `fmod` keeps the sign of its first argument, so at
`t = -1/4`, `f = 1` the sawtooth returns `-3/2` and the triangle returns `2`,
both outside `[-1, 1]`. -/
theorem saw_triangle_unbounded_ce :
    saw (-1/4) 1 = -3/2 ∧ ¬ (|saw (-1/4) 1| ≤ 1) ∧ triangle (-1/4) 1 = 2 := by
  have hc : ⌈(-(1/4) : ℚ)⌉ = 0 := by norm_num
  have hs : saw (-1/4) 1 = -3/2 := by
    simp only [saw, fmod, ratTrunc]
    norm_num [hc]
  refine ⟨hs, ?_, ?_⟩
  · rw [hs, abs_of_nonpos (by norm_num : (-3/2 : ℚ) ≤ 0)]
    norm_num
  · simp only [triangle, hs]
    rw [abs_of_nonpos (by norm_num : (-3/2 : ℚ) ≤ 0)]
    norm_num

/-- Claim C4, amended: on nonnegative phase (`0 ≤ t * f`, which holds for
every sample the synth produces, since time and frequency are nonnegative)
each of the four generators is bounded by 1 in absolute value, given that the
abstracted sine primitive is itself bounded by 1 (true of the real `sin`). -/
theorem waveforms_bounded_nonneg_phase (sin2pi : ℚ → ℚ)
    (hs : ∀ x, |sin2pi x| ≤ 1) (t f : ℚ) (h : 0 ≤ t * f) :
    ∀ w : Waveform, |waveFuncs sin2pi w t f| ≤ 1 := by
  have hfl : ((⌊t * f⌋ : ℤ) : ℚ) ≤ t * f := Int.floor_le _
  have hfu : t * f < ((⌊t * f⌋ : ℤ) : ℚ) + 1 := Int.lt_floor_add_one _
  have hfe : fmod (t * f) 1 = t * f - ((⌊t * f⌋ : ℤ) : ℚ) := by
    rw [fmod, ratTrunc, div_one, if_neg (not_lt.mpr h), mul_one]
  have hsaw : -1 ≤ saw t f ∧ saw t f ≤ 1 := by
    rw [saw, hfe]
    constructor <;> linarith
  intro w
  cases w with
  | W_Sine => simpa [waveFuncs, sine] using hs (t * f)
  | W_Saw =>
      simp only [waveFuncs]
      exact abs_le.mpr hsaw
  | W_Square =>
      simp only [waveFuncs, square]
      split <;> norm_num
  | W_Triangle =>
      simp only [waveFuncs, triangle]
      have h0 : 0 ≤ |saw t f| := abs_nonneg _
      have h1 : |saw t f| ≤ 1 := abs_le.mpr hsaw
      rw [abs_le]
      constructor <;> linarith

/-- Witness for the amended C4: the sawtooth at `t = 1/2`, `f = 3` with the
constant-zero sine primitive. -/
theorem waveforms_bounded_nonneg_phase_witness :
    |waveFuncs (fun _ => 0) Waveform.W_Saw (1/2) 3| ≤ 1 :=
  waveforms_bounded_nonneg_phase (fun _ => 0) (fun x => by simp) (1/2) 3
    (by norm_num) Waveform.W_Saw

/-! ### Claim C5 -/

/-- Claim C5, counterexample: with unison order 1 the single tap's pan is
`(0/1)*2 - 1 = -1`, not 0, so the right gain is 0.  At `t = 1/4`,
frequency 1, sawtooth, full master volume and an attenuation of exactly 1
(the voice was pressed `attackTime = 1/100` seconds before the sample), the
unison path emits `(-1/2, 0)` while the plain path emits `(-1/2, -1/2)`. -/
theorem unison_order_one_right_channel_ce :
    (getVoiceSample ⟨true, ⟨1, 1/400, false⟩, false, 16, false, 1, .W_Saw⟩
        (fun _ => 0) (fun _ => 0) ⟨69, false, 1, 1, 6/25, 0⟩ (1/4) 0 0).1 = (-1/2, 0) ∧
    (getVoiceSample ⟨false, ⟨1, 1/400, false⟩, false, 16, false, 1, .W_Saw⟩
        (fun _ => 0) (fun _ => 0) ⟨69, false, 1, 1, 6/25, 0⟩ (1/4) 0 0).1 = (-1/2, -1/2) ∧
    ((0 : ℚ) ≠ -1/2) := by
  have hsaw : saw (1/4) 1 = -1/2 := by
    norm_num [saw, fmod, ratTrunc]
  have hatt : getADSAttenuation {} (1/100 : ℚ) = 1 := by
    norm_num [getADSAttenuation, clamp, cmin, cmax, lerp]
  refine ⟨?_, ?_, by norm_num⟩ <;>
    norm_num [getVoiceSample, doUnisonDetune, tapFrequency, getDetune,
      getUnisonVoicePan, panToLVol, panToRVol, waveFuncs, hsaw, hatt,
      List.range_succ]

/-- Claim C5, amended: with `order = 1` the single tap has zero detune
offset and the left channel equals the plain waveform path, but the tap pan
is `-1` (left gain 1, right gain 0), so the right channel is 0 instead of
matching the plain path. -/
theorem doUnisonDetune_order_one (p : UnisonParams) (hp : p.unisonOrder = 1)
    (sinf : ℚ → ℚ) (wf : ℚ → ℚ → ℚ) (t freq : ℚ) :
    tapFrequency p sinf freq 0 = freq ∧
    doUnisonDetune p sinf wf t freq 0 0 = (wf t freq, 0) := by
  obtain ⟨o, d, g⟩ := p
  simp only at hp
  subst hp
  have htap : tapFrequency ⟨1, d, g⟩ sinf freq 0 = freq := by
    cases g <;> norm_num [tapFrequency, getDetune]
  refine ⟨htap, ?_⟩
  norm_num [doUnisonDetune, htap, getUnisonVoicePan, panToLVol, panToRVol,
    List.range_succ]

/-- Witness for the amended C5: order 1 with the sawtooth at `t = 1/8`,
frequency 2. -/
theorem doUnisonDetune_order_one_witness :
    doUnisonDetune ⟨1, 1/400, false⟩ (fun _ => 0) saw (1/8) 2 0 0 = (saw (1/8) 2, 0) :=
  (doUnisonDetune_order_one ⟨1, 1/400, false⟩ rfl (fun _ => 0) saw (1/8) 2).2

/-! ### Claim C6 -/

/-- Claim C6: from a pool in which no voice holds `n` and at most one voice
holds any given note, `setNoteOn n t` claims exactly one voice for `n` with
`pressTime = t`, and a second `setNoteOn n t'` (with `t' > t`, no intervening
note-off) is a complete no-op — `noteAlreadyDown` sees the held note and
returns early — preserving the at-most-one-holder invariant. -/
theorem setNoteOn_retrigger_ignored (s : VoicePool) (n : ℤ) (t t' : ℚ)
    (h1 : ∀ i, ¬ heldBy s i n)
    (h2 : ∀ m : ℤ, ∀ i j : Fin NUM_VOICES, heldBy s i m → heldBy s j m → i = j)
    (h3 : t < t') :
    setNoteOn n t' (setNoteOn n t s) = setNoteOn n t s ∧
    (∃! i : Fin NUM_VOICES, heldBy (setNoteOn n t s) i n) ∧
    (∀ i, heldBy (setNoteOn n t s) i n → (setNoteOn n t s i).pressTime = t) ∧
    (∀ m : ℤ, ∀ i j : Fin NUM_VOICES,
      heldBy (setNoteOn n t' (setNoteOn n t s)) i m →
      heldBy (setNoteOn n t' (setNoteOn n t s)) j m → i = j) := by
  have hnd : noteAlreadyDown n s = false := by
    rw [Bool.eq_false_iff]
    intro hc
    obtain ⟨i, hi⟩ := noteAlreadyDown_iff.mp hc
    exact h1 i hi
  have hs1 : setNoteOn n t s = Function.update s (getFreeVoiceIdx s)
      ⟨n, false, pitch n, 1, t, (s (getFreeVoiceIdx s)).releaseTime⟩ :=
    setNoteOn_of_fresh hnd
  have hheld : heldBy (setNoteOn n t s) (getFreeVoiceIdx s) n := by
    rw [hs1]
    constructor <;> simp [Function.update_same]
  have hother : ∀ i, i ≠ getFreeVoiceIdx s → setNoteOn n t s i = s i := by
    intro i hi
    rw [hs1, Function.update_noteq hi]
  have huniq : ∀ i, heldBy (setNoteOn n t s) i n → i = getFreeVoiceIdx s := by
    intro i hi
    by_contra hne
    rw [heldBy, hother i hne] at hi
    exact h1 i hi
  have hd1 : noteAlreadyDown n (setNoteOn n t s) = true :=
    noteAlreadyDown_iff.mpr ⟨getFreeVoiceIdx s, hheld⟩
  have hnoop : setNoteOn n t' (setNoteOn n t s) = setNoteOn n t s :=
    setNoteOn_of_down hd1
  refine ⟨hnoop, ⟨getFreeVoiceIdx s, hheld, huniq⟩, ?_, ?_⟩
  · intro i hi
    rw [huniq i hi, hs1, Function.update_same]
  · rw [hnoop]
    intro m i j hi hj
    by_cases him : i = getFreeVoiceIdx s
    · by_cases hjm : j = getFreeVoiceIdx s
      · rw [him, hjm]
      · exfalso
        have hm : m = n := by
          have := hi.2
          rw [him, hs1, Function.update_same] at this
          exact this.symm
        rw [heldBy, hother j hjm] at hj
        exact h1 j (hm ▸ hj)
    · by_cases hjm : j = getFreeVoiceIdx s
      · exfalso
        have hm : m = n := by
          have := hj.2
          rw [hjm, hs1, Function.update_same] at this
          exact this.symm
        rw [heldBy, hother i him] at hi
        exact h1 i (hm ▸ hi)
      · rw [heldBy, hother i him] at hi
        rw [heldBy, hother j hjm] at hj
        exact h2 m i j hi hj

/-- Witness for C6: double note-on of note 60 at times 0 and 1 on the
zero-initialized pool; the second call changes nothing. -/
theorem setNoteOn_retrigger_ignored_witness :
    setNoteOn 60 1 (setNoteOn 60 0 initVoices) = setNoteOn 60 0 initVoices :=
  (setNoteOn_retrigger_ignored initVoices 60 0 1 (by decide)
    (fun m i j hi _ => absurd hi.1 (by norm_num [initVoices, initVoice]))
    (by norm_num)).1

/-! ### Claim C7 -/

/-- Claim C7: when no voice is finished, `getFreeVoiceIdx` falls through its
scan and returns slot 0 unconditionally, so a note-on of a fresh note onto a
fully occupied pool silently overwrites slot 0 (every other slot is left
unchanged); the operation is total — no failure is surfaced. -/
theorem setNoteOn_steals_slot_zero (s : VoicePool) (n : ℤ) (t : ℚ)
    (hfull : ∀ i, (s i).finishedPlaying = false)
    (hfresh : noteAlreadyDown n s = false) :
    getFreeVoiceIdx s = 0 ∧
    setNoteOn n t s 0 = ⟨n, false, pitch n, 1, t, (s 0).releaseTime⟩ ∧
    (∀ i : Fin NUM_VOICES, i ≠ 0 → setNoteOn n t s i = s i) := by
  have hidx : getFreeVoiceIdx s = 0 := by
    rw [getFreeVoiceIdx]
    have hnone : (List.finRange NUM_VOICES).find? (fun i => (s i).finishedPlaying) = none := by
      apply List.find?_eq_none.mpr
      intro i _
      simp [hfull i]
    rw [hnone]
    rfl
  have hs1 : setNoteOn n t s = Function.update s 0
      ⟨n, false, pitch n, 1, t, (s 0).releaseTime⟩ := by
    rw [setNoteOn_of_fresh hfresh, hidx]
  refine ⟨hidx, ?_, ?_⟩
  · rw [hs1, Function.update_same]
  · intro i hi
    rw [hs1, Function.update_noteq hi]

/-- Witness for C7: a pool where all 16 slots hold note 60 un-finished; a
note-on of 61 allocates slot 0. -/
theorem setNoteOn_steals_slot_zero_witness :
    getFreeVoiceIdx (fun _ => ⟨60, false, 440, 1, 0, 0⟩) = 0 :=
  (setNoteOn_steals_slot_zero (fun _ => ⟨60, false, 440, 1, 0, 0⟩) 61 1
    (by decide) (by decide)).1

/-! ### Claim C8 -/

/-- Claim C8, counterexample: the global voice array is zero-initialized, so
at process start `finishedPlaying` is `false`, not `true`. -/
theorem initVoices_not_finished_ce :
    ¬ ((initVoices 0).finishedPlaying = true) := by decide

/-- Claim C8, amended: at process start every voice is zero-initialized with
`finishedPlaying = false` and `volume = 0` (a released voice with release
time 0), so no slot is "finished"-eligible and allocation falls back to
slot 0; a slot only becomes finished once the render path evaluates it at a
sample time past the 0.1-second default release duration. -/
theorem initVoices_zero_initialized :
    (∀ i, (initVoices i).finishedPlaying = false ∧ (initVoices i).volume = 0) ∧
    getFreeVoiceIdx initVoices = 0 ∧
    (∀ (cfg : SynthConfig) (sinf sin2pi : ℚ → ℚ) (a b t : ℚ), 1/10 < t →
      ((getVoiceSample cfg sinf sin2pi initVoice t a b).2.1).finishedPlaying = true) := by
  refine ⟨by decide, by decide, ?_⟩
  intro cfg sinf sin2pi a b t ht
  cases hc : cfg.enableCompressor <;>
    simp only [getVoiceSample, initVoice, hc] <;>
    norm_num [ht]

/-- Witness for the amended C8: rendering the zero-initialized voice at
`t = 1` marks it finished. -/
theorem initVoices_zero_initialized_witness :
    ((getVoiceSample ⟨false, ⟨16, 1/400, false⟩, false, 16, false, 1, .W_Sine⟩
        (fun _ => 0) (fun _ => 0) initVoice 1 0 0).2.1).finishedPlaying = true :=
  initVoices_zero_initialized.2.2 _ _ _ 0 0 1 (by norm_num)

/-! ### Claim C9 -/

/-- Claim C9, counterexample: the claim quantifies over every positive ADSR
parameter set, but with `sustainAmount = 2 > 1` (all parameters positive) the
decay segment is increasing: at attack 1 and decay 1, the attenuation at
`3/2` is strictly below the attenuation at `2`, refuting monotone
non-increase on `(attackTime, attackTime + decayTime]`. -/
theorem getADSAttenuation_decay_ce :
    ((0:ℚ) < 1 ∧ (0:ℚ) < 1 ∧ (0:ℚ) < 1 ∧ (0:ℚ) < 2) ∧
    (1 : ℚ) < 3/2 ∧ (3/2 : ℚ) ≤ 2 ∧ (2 : ℚ) ≤ 1 + 1 ∧
    getADSAttenuation { attackTime := 1, releaseTime := 1, sustainAmount := 2, decayTime := 1 } (3/2)
      < getADSAttenuation { attackTime := 1, releaseTime := 1, sustainAmount := 2, decayTime := 1 } 2 := by
  refine ⟨by norm_num, by norm_num, by norm_num, by norm_num, ?_⟩
  norm_num [getADSAttenuation, clamp, cmin, cmax, lerp]

/-- Claim C9, amended: for every ADSR parameter set with positive times and
positive sustain level at most 1, the ADS attenuation is non-decreasing on
`[0, attackTime]`, non-increasing on `(attackTime, attackTime + decayTime]`,
equals the sustain level exactly at `attackTime + decayTime`, and stays at
the sustain level thereafter. -/
theorem getADSAttenuation_envelope_shape (c : ADSRCurve)
    (ha : 0 < c.attackTime) (hd : 0 < c.decayTime) (hr : 0 < c.releaseTime)
    (hs0 : 0 < c.sustainAmount) (hs1 : c.sustainAmount ≤ 1) :
    (∀ u v, 0 ≤ u → u ≤ v → v ≤ c.attackTime →
      getADSAttenuation c u ≤ getADSAttenuation c v) ∧
    (∀ u v, c.attackTime < u → u ≤ v → v ≤ c.attackTime + c.decayTime →
      getADSAttenuation c v ≤ getADSAttenuation c u) ∧
    getADSAttenuation c (c.attackTime + c.decayTime) = c.sustainAmount ∧
    (∀ u, c.attackTime + c.decayTime ≤ u → getADSAttenuation c u = c.sustainAmount) := by
  have hA : ∀ x, 0 ≤ x → x ≤ c.attackTime → getADSAttenuation c x = x / c.attackTime := by
    intro x hx0 hx1
    rw [getADSAttenuation]
    rw [clamp01_of_nonpos (div_nonpos_of_nonpos_of_nonneg (by linarith) hd.le)]
    rw [clamp01_of_mem (div_nonneg hx0 ha.le) ((div_le_one ha).mpr hx1)]
    simp [lerp]
  have hB : ∀ x, c.attackTime ≤ x → x ≤ c.attackTime + c.decayTime →
      getADSAttenuation c x = 1 + (c.sustainAmount - 1) * ((x - c.attackTime) / c.decayTime) := by
    intro x hx0 hx1
    rw [getADSAttenuation]
    rw [clamp01_of_one_le ((one_le_div ha).mpr hx0)]
    rw [clamp01_of_mem (div_nonneg (by linarith) hd.le) ((div_le_one hd).mpr (by linarith))]
    simp only [lerp, one_mul]
  have hD : ∀ u, c.attackTime + c.decayTime ≤ u → getADSAttenuation c u = c.sustainAmount := by
    intro u hu
    rw [getADSAttenuation]
    rw [clamp01_of_one_le ((one_le_div ha).mpr (by linarith))]
    rw [clamp01_of_one_le ((one_le_div hd).mpr (by linarith))]
    simp [lerp]
  refine ⟨?_, ?_, hD _ le_rfl, hD⟩
  · intro u v hu huv hv
    rw [hA u hu (le_trans huv hv), hA v (le_trans hu huv) hv]
    exact (div_le_div_right ha).mpr huv
  · intro u v hu huv hv
    rw [hB u hu.le (le_trans huv hv), hB v (le_trans hu.le huv) hv]
    have h1 : (u - c.attackTime) / c.decayTime ≤ (v - c.attackTime) / c.decayTime :=
      (div_le_div_right hd).mpr (by linarith)
    have h2 : c.sustainAmount - 1 ≤ 0 := by linarith
    have := mul_le_mul_of_nonpos_left h1 h2
    linarith

/-- Witness for the amended C9: the program's default curve reaches its
sustain level `4/5` exactly at `attackTime + decayTime`. -/
theorem getADSAttenuation_envelope_shape_witness :
    getADSAttenuation {} ((1/100 : ℚ) + 13/20) = 4/5 :=
  (getADSAttenuation_envelope_shape {} (by norm_num) (by norm_num) (by norm_num)
    (by norm_num) (by norm_num)).2.2.1

/-! ### Claim C10 -/

theorem getVoiceWithNote_some_mem {n : ℤ} {s : VoicePool} {i : Fin NUM_VOICES}
    (h : getVoiceWithNote n s = some i) : (s i).note = n ∧ 0 < (s i).volume := by
  have := List.find?_some h
  simpa using this

theorem countHeld_release_lt {n : ℤ} {t : ℚ} {s : VoicePool} {i : Fin NUM_VOICES}
    (hi : (s i).note = n ∧ 0 < (s i).volume) :
    countHeld n (Function.update s i { s i with volume := 0, releaseTime := t })
      < countHeld n s := by
  apply Finset.card_lt_card
  constructor
  · intro j hj
    simp only [Finset.mem_filter, Finset.mem_univ, true_and] at hj ⊢
    by_cases hji : j = i
    · subst hji
      simp [Function.update_same] at hj
    · simpa [Function.update_noteq hji] using hj
  · intro hsub
    have := hsub (by simp [Finset.mem_filter, hi.1, hi.2] :
      i ∈ Finset.univ.filter fun j : Fin NUM_VOICES =>
        (s j).note = n ∧ 0 < (s j).volume)
    simp [Finset.mem_filter, Function.update_same] at this

/-- Claim C10: `setNoteOff`'s `while (true)` loop terminates — each pass
releases the first voice holding the note with positive gate, strictly
decreasing `countHeld` (the third conjunct), which is exactly the measure
that makes the Lean recursion well-founded — and afterwards no voice holds
the note with positive gate; if no voice held the note to begin with, the
pool is returned completely unchanged. -/
theorem setNoteOff_terminates_clears (n : ℤ) (t : ℚ) :
    (∀ s : VoicePool, getVoiceWithNote n (setNoteOff n t s) = none) ∧
    (∀ s : VoicePool, getVoiceWithNote n s = none → setNoteOff n t s = s) ∧
    (∀ (s : VoicePool) (i : Fin NUM_VOICES), getVoiceWithNote n s = some i →
      countHeld n (Function.update s i { s i with volume := 0, releaseTime := t })
        < countHeld n s) := by
  have hnoop : ∀ s : VoicePool, getVoiceWithNote n s = none → setNoteOff n t s = s := by
    intro s hnone
    rw [setNoteOff]
    split
    · rfl
    · rename_i j hj
      rw [hnone] at hj
      exact absurd hj (by simp)
  have main : ∀ k (s : VoicePool), countHeld n s ≤ k →
      getVoiceWithNote n (setNoteOff n t s) = none := by
    intro k
    induction k with
    | zero =>
        intro s hs
        have hnone : getVoiceWithNote n s = none := by
          rw [getVoiceWithNote_eq_none_iff]
          intro i hi
          have hmem : i ∈ Finset.univ.filter (fun j : Fin NUM_VOICES =>
              (s j).note = n ∧ 0 < (s j).volume) := by
            simp [Finset.mem_filter, hi.1, hi.2]
          have hpos : 0 < countHeld n s := Finset.card_pos.mpr ⟨i, hmem⟩
          omega
        rw [hnoop s hnone]
        exact hnone
    | succ k ih =>
        intro s hs
        rw [setNoteOff]
        split
        · rename_i hnone
          exact hnone
        · rename_i i hi
          apply ih
          have hlt := countHeld_release_lt (t := t) (getVoiceWithNote_some_mem hi)
          omega
  exact ⟨fun s => main (countHeld n s) s le_rfl, hnoop,
    fun s i hi => countHeld_release_lt (getVoiceWithNote_some_mem hi)⟩

/-- Witness for C10: releasing note 60 on the zero-initialized pool (no voice
holds it) leaves the pool unchanged. -/
theorem setNoteOff_terminates_clears_witness :
    setNoteOff 60 1 initVoices = initVoices :=
  (setNoteOff_terminates_clears 60 1).2.1 initVoices (by decide)

end Polysynth
